import Mathlib

/-!
Shallow embedding of the long-term memory store of this repository
(`src/task/tools/memory/memory_store.py`, class `LongTermMemoryStore`).

Modelling conventions:
* Python floats (timestamps, importances, embedding components) are modelled
  as exact rationals `ℚ`; machine-float rounding is not at issue in any claim.
* The embedder (`SentenceTransformer.encode`) is an external collaborator; its
  output vectors are passed in as parameters.
* FAISS `IndexFlatIP` over L2-normalized vectors performs exact inner-product
  search, i.e. exact cosine-similarity search.  Its k-NN result list is
  modelled as the list of indices sorted by descending cosine similarity with
  ties broken by ascending index (the deterministic order stated in §4.1 of
  the design).  Comparisons between cosine similarities are embedded exactly
  over `ℚ` by the sign-aware squared comparisons below, so every definition
  stays computable; the bridge lemmas relate them to the real-valued cosine.
* Network / persistence I/O can fail; a call site that may raise is modelled
  by an explicit boolean outcome parameter (`dedupOk`, `saveOk`), and the
  `try/except` structure of the source is reproduced on top of it.
-/

namespace MemStore

/-- Record metadata as serialized by the store.  The pydantic model lives in
`task/tools/memory/_models.py`, which is not under `src/`; its field list is
taken from the persistence schema in §6 of the design (id, content, embedding,
importance, category, topics, timestamp, last_accessed, access_count). -/
structure MemoryData where
  id : ℤ
  content : String
  importance : ℚ
  category : String
  topics : List String
  timestamp : ℚ
  last_accessed : Option ℚ
  access_count : ℕ
  deriving Repr, DecidableEq, Inhabited

/-- A stored memory: metadata plus its embedding vector. -/
structure Memory where
  data : MemoryData
  embedding : List ℚ
  deriving Repr, DecidableEq, Inhabited

/-- The collection persisted as one JSON file per user. -/
structure MemoryCollection where
  memories : List Memory
  updated_at : Option ℚ
  last_deduplicated_at : Option ℚ
  deriving Repr, DecidableEq, Inhabited

/-- The empty collection created when no persisted file exists. -/
def emptyCollection : MemoryCollection := ⟨[], none, none⟩

/-- Inner product of two vectors (`np.dot`; zip semantics suffices because all
vectors in one collection share the embedder's output width). -/
def dot (a b : List ℚ) : ℚ := (List.zipWith (fun x y => x * y) a b).sum

/-- Squared L2 norm of a vector. -/
def normSq (v : List ℚ) : ℚ := dot v v

/-- Embeds the source comparison `similarities[i][j] > 0.75`, where the score
of `a` against `b` is the inner product of the L2-normalized vectors, i.e.
`dot a b / (‖a‖ * ‖b‖)`.  For the nonnegative threshold `3/4` this holds iff
`dot a b > 0` and `16 * (dot a b)^2 > 9 * ‖a‖^2 * ‖b‖^2`, which is exact over
`ℚ`.  A zero-norm vector never passes (its score is not a positive real). -/
def cos_gt_075 (a b : List ℚ) : Bool :=
  decide (0 < dot a b) && decide (9 * (normSq a * normSq b) < 16 * dot a b ^ 2)

/-- Sort key embedding the cosine similarity of `v` against a fixed query `q`:
for `x = dot q v` and `N = ‖v‖²` the key is `x * |x| / N`, a strictly
monotone image of `dot q v / ‖v‖` (the cosine score up to the positive factor
`1/‖q‖`), hence it induces exactly the similarity order FAISS sorts by.  A
zero-norm vector gets key `0` (the degenerate case). -/
def simKey (q v : List ℚ) : ℚ :=
  if normSq v = 0 then 0 else dot q v * |dot q v| / normSq v

/-- The order in which FAISS lists neighbors of query `q` over the vector
table `vs`: descending similarity, ties by ascending index. -/
def nbr_le (q : List ℚ) (vs : List (List ℚ)) (a b : ℕ) : Prop :=
  simKey q (vs.getD b []) < simKey q (vs.getD a []) ∨
    (simKey q (vs.getD a []) = simKey q (vs.getD b []) ∧ a ≤ b)

instance (q : List ℚ) (vs : List (List ℚ)) : DecidableRel (nbr_le q vs) :=
  fun _ _ => by unfold nbr_le; infer_instance

/-- `index.search` over the table `vs`: the `k` nearest neighbors of `q`,
as indices into `vs`, in the deterministic FAISS order. -/
def knn (vs : List (List ℚ)) (q : List ℚ) (k : ℕ) : List ℕ :=
  ((List.range vs.length).insertionSort (nbr_le q vs)).take k

/-- Importance of the record at index `i` (`memories[i].data.importance`). -/
def imp_at (mems : List Memory) (i : ℕ) : ℚ := ((mems.getD i default).data).importance

/-- Embedding of the record at index `i` (`memories[i].embedding`). -/
def emb_at (mems : List Memory) (i : ℕ) : List ℚ := (mems.getD i default).embedding

/-- The inner loop of `_deduplicate_fast` (`for j in range(1, k)`): walk the
neighbor list of record `i`, skipping already-marked neighbors; when a
neighbor scores `> 0.75`, mark the neighbor if `importance_i >= importance_nb`
and keep going, otherwise mark `i` itself and `break`. -/
def dedup_visit (mems : List Memory) (i : ℕ) : List ℕ → Finset ℕ → Finset ℕ
  | [], removed => removed
  | nb :: rest, removed =>
    if nb ∈ removed then dedup_visit mems i rest removed
    else if cos_gt_075 (emb_at mems i) (emb_at mems nb) then
      if imp_at mems nb ≤ imp_at mems i then dedup_visit mems i rest (insert nb removed)
      else insert i removed
    else dedup_visit mems i rest removed

/-- The outer loop of `_deduplicate_fast` (`for i in range(n)`): records are
visited in order; a record already marked is skipped; position 0 of each
neighbor list is dropped (`range(1, k)` — "skip itself"). -/
def dedup_removed (mems : List Memory) : Finset ℕ :=
  let vs := mems.map (fun m => m.embedding)
  let k := min 10 mems.length
  (List.range mems.length).foldl
    (fun removed i =>
      if i ∈ removed then removed
      else dedup_visit mems i ((knn vs (vs.getD i []) k).drop 1) removed)
    ∅

/-- `_deduplicate_fast`: collections of size < 2 pass through; otherwise the
records whose index was marked are dropped, preserving relative order. -/
def deduplicate_fast (mems : List Memory) : List Memory :=
  if mems.length < 2 then mems
  else (mems.enum.filter (fun p => decide (p.1 ∉ dedup_removed mems))).map (fun p => p.2)

/-- `_needs_deduplication`: true when never deduplicated, or when more than 24
hours (86400 seconds) have passed since `last_deduplicated_at`. -/
def needs_deduplication (now : ℚ) (c : MemoryCollection) : Bool :=
  match c.last_deduplicated_at with
  | none => true
  | some t => decide ((86400 : ℚ) < now - t)

/-- `_deduplicate_and_save`.  `dedupOk = false` models an exception raised
inside `_deduplicate_fast` (before the collection is touched); `saveOk =
false` models an exception raised by the upload inside `_save_memories`.  Both
are caught by the surrounding `except`, which returns the `collection` object
— which, in the save-failure case, has already been mutated in place
(`collection.memories`, `collection.last_deduplicated_at`, and `updated_at`
set by `_save_memories` before the upload).  The boolean result records
whether the collection was actually persisted. -/
def deduplicate_and_save (dedupOk saveOk : Bool) (now : ℚ) (c : MemoryCollection) :
    MemoryCollection × Bool :=
  if c.memories.length < 2 then (c, false)
  else if dedupOk = false then (c, false)
  else (⟨deduplicate_fast c.memories, some now, some now⟩, saveOk)

/-- `search_memories`: empty collections return `[]`; otherwise a due dedup
pass runs first, then the (possibly deduplicated) collection is indexed, the
query vector `qv` (produced by the external embedder) is searched with
`k = min(top_k, n)`, and the metadata of the hits is returned.  The first
component is the collection the search ran on, i.e. the state left in the
store's cache. -/
def search_memories (dedupOk saveOk : Bool) (now : ℚ) (c : MemoryCollection)
    (qv : List ℚ) (top_k : ℕ) : MemoryCollection × List MemoryData :=
  if c.memories.isEmpty then (c, [])
  else
    let c1 := if needs_deduplication now c then (deduplicate_and_save dedupOk saveOk now c).1 else c
    let vs := c1.memories.map (fun m => m.embedding)
    let k := min top_k c1.memories.length
    (c1, (knn vs qv k).map (fun i => (c1.memories.getD i default).data))

/-- Python `int()` applied to a (finite) float: truncation toward zero. -/
def pyInt (x : ℚ) : ℤ := if 0 ≤ x then ⌊x⌋ else ⌈x⌉

/-- Modelled from the spec: the pydantic model `MemoryData` in
`task/tools/memory/_models.py` is not under `src/`; §3 of the design states
`importance: float in [0.0, 1.0], clamped on write`. -/
def clamp_importance (x : ℚ) : ℚ := max 0 (min 1 x)

/-- The record built by `add_memory`: the id is `int(datetime.now(UTC)
.timestamp())` — the current Unix time truncated to whole seconds (visible in
`memory_store.py`); importance clamping and the remaining field defaults
(creation timestamp, no accesses yet) are modelled from the spec because
`_models.py` is not under `src/`. -/
def mkMemoryData (now : ℚ) (content : String) (importance : ℚ) (category : String)
    (topics : List String) : MemoryData :=
  ⟨pyInt now, content, clamp_importance importance, category, topics, now, none, 0⟩

/-- `add_memory`: unconditionally embeds `content` (there is no validation of
any kind before the embedder call), appends the new record and saves (which
stamps `updated_at`).  The second component is the list of texts sent to the
embedder during the call, used to state when embedding generation happened. -/
def add_memory (now : ℚ) (encode : String → List ℚ) (c : MemoryCollection)
    (content : String) (importance : ℚ) (category : String) (topics : List String) :
    MemoryCollection × List String :=
  let embedding := encode content
  (⟨c.memories ++ [⟨mkMemoryData now content importance category topics, embedding⟩],
     some now, c.last_deduplicated_at⟩, [content])

/-- Specification-side real-valued cosine similarity of two vectors,
`dot a b / (‖a‖ * ‖b‖)`; used only in theorem statements and proofs to relate
the exact rational comparisons above to the similarity the design talks
about. -/
noncomputable def cosSimR (a b : List ℚ) : ℝ :=
  ((dot a b : ℚ) : ℝ) / (Real.sqrt ((normSq a : ℚ) : ℝ) * Real.sqrt ((normSq b : ℚ) : ℝ))

/-- Lookup in the store's in-memory cache (`self._cache`, a dict keyed by
conversation id), modelled as an association list. -/
def cache_lookup (cache : List (String × MemoryCollection)) (key : String) :
    Option MemoryCollection :=
  (cache.find? (fun e => e.1 == key)).map (fun e => e.2)

/-- The cache effect of `delete_all_memories`: `if conversation_id in
self._cache: del self._cache[conversation_id]` — only the entry under the
given conversation id is removed. -/
def delete_all_memories (cache : List (String × MemoryCollection))
    (conversationId : String) : List (String × MemoryCollection) :=
  cache.filter (fun e => !(e.1 == conversationId))

/-! ### Concrete fixtures used by counterexamples and witnesses -/

/-- A constant embedder, standing in for any `SentenceTransformer`. -/
def encOne : String → List ℚ := fun _ => [1]

/-- Record A of the C1 scenario: importance `1/2`, direction `(1, 0)`. -/
def c1memA : Memory := ⟨⟨1, "a", 1/2, "g", [], 0, none, 0⟩, [1, 0]⟩

/-- Record B of the C1 scenario: importance `2/5`, direction `(5, -1)`;
cosine similarity with A is `5/√26 ≈ 0.98 > 0.75`. -/
def c1memB : Memory := ⟨⟨2, "b", 2/5, "g", [], 0, none, 0⟩, [5, -1]⟩

/-- Record C of the C1 scenario: importance `9/10`, direction `(4, 3)`;
cosine similarity with A is `4/5 = 0.8 > 0.75`, with B it is
`17/(5√26) ≈ 0.67 ≤ 0.75`. -/
def c1memC : Memory := ⟨⟨3, "c", 9/10, "g", [], 0, none, 0⟩, [4, 3]⟩

/-- The C1 scenario collection contents. -/
def c1mems : List Memory := [c1memA, c1memB, c1memC]

/-- Single-record collection for the C5 counterexample. -/
def c5data : MemoryData := ⟨1, "x", 1/2, "g", [], 0, none, 0⟩

/-- Collection holding `c5data`, never deduplicated. -/
def c5col : MemoryCollection := ⟨[⟨c5data, [1]⟩], none, none⟩

/-- Two near-duplicate records (same vectors as A and B of the C1 scenario)
for the C6 counterexample. -/
def c6col : MemoryCollection :=
  ⟨[⟨⟨1, "a", 1/2, "g", [], 0, none, 0⟩, [1, 0]⟩,
    ⟨⟨2, "b", 2/5, "g", [], 0, none, 0⟩, [5, -1]⟩], none, none⟩

/-- A cache holding collections for two conversations of the same user. -/
def c7cache : List (String × MemoryCollection) :=
  [("conv1", emptyCollection), ("conv2", emptyCollection)]

/-- A record whose embedding has zero norm, for the C9 counterexample. -/
def c9data : MemoryData := ⟨1, "z", 1/2, "g", [], 0, none, 0⟩

/-- Collection holding the zero-norm record. -/
def c9col : MemoryCollection := ⟨[⟨c9data, [0, 0]⟩], none, none⟩

/-- Single-record collection used by several witnesses. -/
def witcol : MemoryCollection := ⟨[⟨⟨7, "w", 1, "g", [], 0, none, 0⟩, [1, 0]⟩], none, none⟩

/-! ### Helper lemmas -/

theorem dot_cons (a b : ℚ) (l m : List ℚ) : dot (a :: l) (b :: m) = a * b + dot l m := by
  simp [dot]

theorem normSq_nonneg (v : List ℚ) : 0 ≤ normSq v := by
  induction v with
  | nil => simp [normSq, dot]
  | cons a t ih =>
    have h := dot_cons a a t t
    have : 0 ≤ a * a := mul_self_nonneg a
    simp only [normSq] at ih ⊢
    rw [h]
    positivity

theorem emb_getD (mems : List Memory) (a : ℕ) :
    (mems.map (fun m => m.embedding)).getD a [] = emb_at mems a := by
  rcases Nat.lt_or_ge a mems.length with h | h
  · rw [List.getD_eq_getElem _ _ (by simpa using h), List.getElem_map]
    rw [emb_at, List.getD_eq_getElem _ _ h]
  · rw [List.getD_eq_default _ _ (by simpa using h), emb_at,
      List.getD_eq_default _ _ h]
    rfl

theorem nbr_le_total (q : List ℚ) (vs : List (List ℚ)) (a b : ℕ) :
    nbr_le q vs a b ∨ nbr_le q vs b a := by
  rcases lt_trichotomy (simKey q (vs.getD a [])) (simKey q (vs.getD b [])) with h | h | h
  · exact Or.inr (Or.inl h)
  · rcases Nat.le_total a b with hab | hab
    · exact Or.inl (Or.inr ⟨h, hab⟩)
    · exact Or.inr (Or.inr ⟨h.symm, hab⟩)
  · exact Or.inl (Or.inl h)

theorem nbr_le_trans (q : List ℚ) (vs : List (List ℚ)) (a b c : ℕ) :
    nbr_le q vs a b → nbr_le q vs b c → nbr_le q vs a c := by
  rintro (h1 | ⟨h1, h1n⟩) (h2 | ⟨h2, h2n⟩)
  · exact Or.inl (h2.trans h1)
  · exact Or.inl (h2 ▸ h1)
  · exact Or.inl (h2.trans_eq h1.symm)
  · exact Or.inr ⟨h2 ▸ h1, h1n.trans h2n⟩

theorem knn_length (vs : List (List ℚ)) (q : List ℚ) (k : ℕ) :
    (knn vs q k).length = min k vs.length := by
  rw [knn, List.length_take, (List.perm_insertionSort _ _).length_eq, List.length_range]

theorem mem_knn (vs : List (List ℚ)) (q : List ℚ) (k : ℕ) {i : ℕ} (h : i ∈ knn vs q k) :
    i < vs.length := by
  rw [knn] at h
  have h2 := (List.perm_insertionSort (nbr_le q vs) (List.range vs.length)).mem_iff.mp
    (List.mem_of_mem_take h)
  simpa using h2

theorem knn_nodup (vs : List (List ℚ)) (q : List ℚ) (k : ℕ) : (knn vs q k).Nodup := by
  rw [knn]
  exact ((List.perm_insertionSort _ _).nodup_iff.mpr (List.nodup_range _)).sublist
    (List.take_sublist _ _)

theorem knn_sorted (vs : List (List ℚ)) (q : List ℚ) (k : ℕ) :
    (knn vs q k).Pairwise (nbr_le q vs) := by
  haveI : IsTotal ℕ (nbr_le q vs) := ⟨nbr_le_total q vs⟩
  haveI : IsTrans ℕ (nbr_le q vs) := ⟨nbr_le_trans q vs⟩
  rw [knn]
  exact (List.sorted_insertionSort (nbr_le q vs) (List.range vs.length)).sublist
    (List.take_sublist _ _)

theorem dedup_visit_subset (mems : List Memory) (i : ℕ) (nbrs : List ℕ) (removed : Finset ℕ) :
    removed ⊆ dedup_visit mems i nbrs removed := by
  induction nbrs generalizing removed with
  | nil => exact fun a ha => ha
  | cons nb rest ih =>
    rw [dedup_visit]
    split
    · exact ih removed
    · split
      · split
        · exact fun a ha => ih _ (Finset.mem_insert_of_mem ha)
        · exact fun a ha => Finset.mem_insert_of_mem ha
      · exact ih removed

theorem dedup_visit_spec (mems : List Memory) (i : ℕ) (nbrs : List ℕ) (removed : Finset ℕ)
    (hi : i ∉ dedup_visit mems i nbrs removed) :
    ∀ nb ∈ nbrs, cos_gt_075 (emb_at mems i) (emb_at mems nb) = true →
      nb ∈ dedup_visit mems i nbrs removed := by
  induction nbrs generalizing removed with
  | nil => intro nb h; exact absurd h (List.not_mem_nil nb)
  | cons nb0 rest ih =>
    intro nb hnb hsim
    rw [dedup_visit] at hi ⊢
    by_cases h0 : nb0 ∈ removed
    · rw [if_pos h0] at hi ⊢
      rcases List.mem_cons.mp hnb with rfl | htail
      · exact dedup_visit_subset mems i rest removed h0
      · exact ih removed hi nb htail hsim
    · rw [if_neg h0] at hi ⊢
      by_cases hc : cos_gt_075 (emb_at mems i) (emb_at mems nb0) = true
      · rw [if_pos hc] at hi ⊢
        by_cases himp : imp_at mems nb0 ≤ imp_at mems i
        · rw [if_pos himp] at hi ⊢
          rcases List.mem_cons.mp hnb with rfl | htail
          · exact dedup_visit_subset mems i rest _ (Finset.mem_insert_self nb removed)
          · exact ih _ hi nb htail hsim
        · rw [if_neg himp] at hi ⊢
          exact absurd (Finset.mem_insert_self i removed) hi
      · rw [if_neg hc] at hi ⊢
        rcases List.mem_cons.mp hnb with rfl | htail
        · exact absurd hsim hc
        · exact ih removed hi nb htail hsim

theorem dedup_step_subset (mems : List Memory) (vs : List (List ℚ)) (k : ℕ)
    (removed : Finset ℕ) (i : ℕ) :
    removed ⊆
      (if i ∈ removed then removed
       else dedup_visit mems i ((knn vs (vs.getD i []) k).drop 1) removed) := by
  split
  · exact fun a ha => ha
  · exact dedup_visit_subset mems i _ removed

theorem dedup_foldl_subset (mems : List Memory) (vs : List (List ℚ)) (k : ℕ)
    (l : List ℕ) (removed : Finset ℕ) :
    removed ⊆
      l.foldl
        (fun r i =>
          if i ∈ r then r else dedup_visit mems i ((knn vs (vs.getD i []) k).drop 1) r)
        removed := by
  induction l generalizing removed with
  | nil => exact fun a ha => ha
  | cons x t ih =>
    rw [List.foldl_cons]
    exact (dedup_step_subset mems vs k removed x).trans (ih _)

/-- C1 amended: for every pair the deduplication pass examines from a record
that ends up surviving, the other member is marked removed: if record `x` is
not removed, then every neighbor in the examined part of `x`'s k-NN list
(positions `1..k-1`) whose cosine similarity with `x` exceeds 0.75 is in the
removed set.  At the moment a pair is examined, exactly one member is marked —
the lower-importance one, the visiting record winning ties — but a record
kept at one examination can still be removed later through a different pair,
so for an examined pair both members can end up removed and the higher-
importance member does not always survive (see the counterexample); the
claim's per-pair "exactly one is removed / higher importance is kept"
guarantee only holds in this weakened, survivor-relative form. -/
theorem dedup_removed_of_surviving (mems : List Memory) (x : ℕ)
    (hx : x < mems.length) (hsurv : x ∉ dedup_removed mems) :
    ∀ nb ∈ (knn (mems.map fun m => m.embedding)
        ((mems.map fun m => m.embedding).getD x []) (min 10 mems.length)).drop 1,
      cos_gt_075 (emb_at mems x) (emb_at mems nb) = true → nb ∈ dedup_removed mems := by
  intro nb hnb hsim
  simp only [dedup_removed] at hsurv ⊢
  obtain ⟨l1, l2, hsplit⟩ := List.append_of_mem (List.mem_range.mpr hx)
  rw [hsplit, List.foldl_append, List.foldl_cons] at hsurv ⊢
  set vs := mems.map fun m => m.embedding with hvs
  set k := min 10 mems.length with hk
  set f := fun (r : Finset ℕ) (i : ℕ) =>
    if i ∈ r then r else dedup_visit mems i ((knn vs (vs.getD i []) k).drop 1) r with hf
  set r1 := l1.foldl f ∅ with hr1
  have hsub2 : f r1 x ⊆ l2.foldl f (f r1 x) := dedup_foldl_subset mems vs k l2 (f r1 x)
  have hx1 : x ∉ f r1 x := fun h => hsurv (hsub2 h)
  by_cases hxr : x ∈ r1
  · exact absurd (by rw [hf]; simp [hxr]) hx1
  · have hfx : f r1 x = dedup_visit mems x ((knn vs (vs.getD x []) k).drop 1) r1 := by
      rw [hf]; simp [hxr]
    rw [hfx] at hx1
    have := dedup_visit_spec mems x ((knn vs (vs.getD x []) k).drop 1) r1 hx1 nb hnb hsim
    exact hsub2 (by rw [hfx]; exact this)

theorem deduplicate_fast_sublist (mems : List Memory) :
    (deduplicate_fast mems).Sublist mems := by
  rw [deduplicate_fast]
  split
  · exact List.Sublist.refl mems
  · have h1 : (mems.enum.filter fun p => decide (p.1 ∉ dedup_removed mems)).Sublist mems.enum :=
      List.filter_sublist _
    have h2 := h1.map (fun p : ℕ × Memory => p.2)
    rwa [List.enum_map_snd] at h2

theorem deduplicate_and_save_sublist (dedupOk saveOk : Bool) (now : ℚ) (c : MemoryCollection) :
    ((deduplicate_and_save dedupOk saveOk now c).1).memories.Sublist c.memories := by
  rw [deduplicate_and_save]
  split
  · exact List.Sublist.refl _
  · split
    · exact List.Sublist.refl _
    · exact deduplicate_fast_sublist c.memories

theorem search_memories_fst (dedupOk saveOk : Bool) (now : ℚ) (c : MemoryCollection)
    (qv : List ℚ) (top_k : ℕ) :
    (search_memories dedupOk saveOk now c qv top_k).1 =
      if c.memories.isEmpty then c
      else if needs_deduplication now c then (deduplicate_and_save dedupOk saveOk now c).1
      else c := by
  rw [search_memories]
  split
  · simp
  · split <;> simp

theorem search_memories_snd (dedupOk saveOk : Bool) (now : ℚ) (c : MemoryCollection)
    (qv : List ℚ) (top_k : ℕ) (h : c.memories.isEmpty = false) :
    (search_memories dedupOk saveOk now c qv top_k).2 =
      (knn ((search_memories dedupOk saveOk now c qv top_k).1.memories.map fun m => m.embedding)
          qv (min top_k (search_memories dedupOk saveOk now c qv top_k).1.memories.length)).map
        (fun i =>
          ((search_memories dedupOk saveOk now c qv top_k).1.memories.getD i default).data) := by
  rw [search_memories_fst, search_memories, h]
  simp only [Bool.false_eq_true, if_false]

theorem search_memories_fst_sublist (dedupOk saveOk : Bool) (now : ℚ) (c : MemoryCollection)
    (qv : List ℚ) (top_k : ℕ) :
    ((search_memories dedupOk saveOk now c qv top_k).1).memories.Sublist c.memories := by
  rw [search_memories_fst]
  split
  · exact List.Sublist.refl _
  · split
    · exact deduplicate_and_save_sublist dedupOk saveOk now c
    · exact List.Sublist.refl _

theorem strictMono_mul_abs : StrictMono (fun t : ℝ => t * |t|) := by
  intro a b hab
  simp only
  rcases le_or_lt 0 a with ha | ha
  · rw [abs_of_nonneg ha, abs_of_nonneg (ha.trans hab.le)]
    exact mul_self_lt_mul_self ha hab
  · rcases le_or_lt 0 b with hb | hb
    · have h1 : a * |a| < 0 := by rw [abs_of_neg ha]; nlinarith
      have h2 : 0 ≤ b * |b| := mul_nonneg hb (abs_nonneg b)
      linarith
    · rw [abs_of_neg ha, abs_of_neg hb]
      nlinarith

theorem simKey_cast (q v : List ℚ) (hq : 0 < normSq q) (hv : 0 < normSq v) :
    ((simKey q v : ℚ) : ℝ) =
      (cosSimR q v * Real.sqrt ((normSq q : ℚ) : ℝ)) *
        |cosSimR q v * Real.sqrt ((normSq q : ℚ) : ℝ)| := by
  have hQr : (0:ℝ) < ((normSq q : ℚ) : ℝ) := by exact_mod_cast hq
  have hNr : (0:ℝ) < ((normSq v : ℚ) : ℝ) := by exact_mod_cast hv
  have hs : (0:ℝ) < Real.sqrt ((normSq q : ℚ) : ℝ) := Real.sqrt_pos.mpr hQr
  have ht : (0:ℝ) < Real.sqrt ((normSq v : ℚ) : ℝ) := Real.sqrt_pos.mpr hNr
  have hkey : cosSimR q v * Real.sqrt ((normSq q : ℚ) : ℝ) =
      ((dot q v : ℚ) : ℝ) / Real.sqrt ((normSq v : ℚ) : ℝ) := by
    rw [cosSimR]
    field_simp
    ring
  rw [simKey, if_neg (ne_of_gt hv), hkey, abs_div, abs_of_pos ht, div_mul_div_comm,
    Real.mul_self_sqrt hNr.le]
  push_cast
  ring

theorem simKey_lt_iff (q a b : List ℚ) (hq : 0 < normSq q) (ha : 0 < normSq a)
    (hb : 0 < normSq b) :
    simKey q a < simKey q b ↔ cosSimR q a < cosSimR q b := by
  have hs : (0:ℝ) < Real.sqrt ((normSq q : ℚ) : ℝ) :=
    Real.sqrt_pos.mpr (by exact_mod_cast hq)
  constructor
  · intro h
    have hc : ((simKey q a : ℚ) : ℝ) < ((simKey q b : ℚ) : ℝ) := by exact_mod_cast h
    rw [simKey_cast q a hq ha, simKey_cast q b hq hb] at hc
    exact (mul_lt_mul_right hs).mp (strictMono_mul_abs.lt_iff_lt.mp hc)
  · intro h
    have hc : (cosSimR q a * Real.sqrt ((normSq q : ℚ) : ℝ)) *
        |cosSimR q a * Real.sqrt ((normSq q : ℚ) : ℝ)| <
        (cosSimR q b * Real.sqrt ((normSq q : ℚ) : ℝ)) *
        |cosSimR q b * Real.sqrt ((normSq q : ℚ) : ℝ)| :=
      strictMono_mul_abs ((mul_lt_mul_right hs).mpr h)
    rw [← simKey_cast q a hq ha, ← simKey_cast q b hq hb] at hc
    exact_mod_cast hc

theorem simKey_eq_iff (q a b : List ℚ) (hq : 0 < normSq q) (ha : 0 < normSq a)
    (hb : 0 < normSq b) :
    simKey q a = simKey q b ↔ cosSimR q a = cosSimR q b := by
  have hs : (0:ℝ) < Real.sqrt ((normSq q : ℚ) : ℝ) :=
    Real.sqrt_pos.mpr (by exact_mod_cast hq)
  constructor
  · intro h
    have hc : ((simKey q a : ℚ) : ℝ) = ((simKey q b : ℚ) : ℝ) := by exact_mod_cast h
    rw [simKey_cast q a hq ha, simKey_cast q b hq hb] at hc
    have := strictMono_mul_abs.injective hc
    exact mul_right_cancel₀ (ne_of_gt hs) this
  · intro h
    have : ((simKey q a : ℚ) : ℝ) = ((simKey q b : ℚ) : ℝ) := by
      rw [simKey_cast q a hq ha, simKey_cast q b hq hb, h]
    exact_mod_cast this

theorem nbr_le_bridge (q : List ℚ) (vs : List (List ℚ)) (a b : ℕ)
    (hq : 0 < normSq q) (ha : 0 < normSq (vs.getD a [])) (hb : 0 < normSq (vs.getD b []))
    (hab : a ≠ b) (h : nbr_le q vs a b) :
    cosSimR q (vs.getD b []) ≤ cosSimR q (vs.getD a []) ∧
      (cosSimR q (vs.getD a []) = cosSimR q (vs.getD b []) → a < b) := by
  rcases h with h | ⟨heq, hle⟩
  · have hlt := (simKey_lt_iff q (vs.getD b []) (vs.getD a []) hq hb ha).mp h
    exact ⟨hlt.le, fun he => absurd he.symm (ne_of_lt hlt)⟩
  · have he := (simKey_eq_iff q (vs.getD a []) (vs.getD b []) hq ha hb).mp heq
    exact ⟨he.ge, fun _ => lt_of_le_of_ne hle hab⟩

theorem knn_map_ordered (mems : List Memory) (qv : List ℚ) (k : ℕ)
    (hq : 0 < normSq qv) (hmem : ∀ m ∈ mems, 0 < normSq m.embedding) :
    (knn (mems.map fun m => m.embedding) qv k).Pairwise (fun i j =>
      cosSimR qv (emb_at mems j) ≤ cosSimR qv (emb_at mems i) ∧
      (cosSimR qv (emb_at mems i) = cosSimR qv (emb_at mems j) → i < j)) := by
  have hsorted := knn_sorted (mems.map fun m => m.embedding) qv k
  have hnodup := knn_nodup (mems.map fun m => m.embedding) qv k
  refine List.Pairwise.imp_of_mem ?_ (hsorted.and hnodup)
  intro a b ha hb hR
  obtain ⟨hab, hne2⟩ := hR
  have hal : a < mems.length := by
    have := mem_knn _ _ _ ha
    simpa using this
  have hbl : b < mems.length := by
    have := mem_knn _ _ _ hb
    simpa using this
  have hma : mems.getD a default ∈ mems := by
    rw [List.getD_eq_getElem _ _ hal]
    exact List.getElem_mem hal
  have hmb : mems.getD b default ∈ mems := by
    rw [List.getD_eq_getElem _ _ hbl]
    exact List.getElem_mem hbl
  have hpa : 0 < normSq (emb_at mems a) := hmem _ hma
  have hpb : 0 < normSq (emb_at mems b) := hmem _ hmb
  have hpa2 : 0 < normSq ((mems.map fun m => m.embedding).getD a []) := by
    rw [emb_getD]
    exact hpa
  have hpb2 : 0 < normSq ((mems.map fun m => m.embedding).getD b []) := by
    rw [emb_getD]
    exact hpb
  have hbr0 := nbr_le_bridge qv (mems.map fun m => m.embedding) a b hq hpa2 hpb2 hne2
  have hbr := hbr0 hab
  rw [emb_getD, emb_getD] at hbr
  exact hbr

theorem find?_filter_of_imp {α : Type} (l : List α) (p q : α → Bool)
    (h : ∀ e, p e = true → q e = true) :
    (l.filter q).find? p = l.find? p := by
  induction l with
  | nil => rfl
  | cons e t ih =>
    by_cases hq : q e = true
    · rw [List.filter_cons, if_pos hq]
      by_cases hpe : p e = true
      · rw [List.find?_cons_of_pos _ hpe, List.find?_cons_of_pos _ hpe]
      · rw [List.find?_cons_of_neg _ (by simpa using hpe),
          List.find?_cons_of_neg _ (by simpa using hpe)]
        exact ih
    · have hpe : ¬ p e = true := fun hp => hq (h e hp)
      rw [List.filter_cons, if_neg hq, List.find?_cons_of_neg _ hpe]
      exact ih

/-! ### Claim theorems -/

/-- C2: every record created by `add_memory` stores an importance lying in
`[0, 1]`: the stored value is `max 0 (min 1 importance)`, so inputs above 1
are stored as 1 and inputs below 0 as 0.  (The clamp itself is modelled from
the spec, §3: `importance: float in [0.0, 1.0], clamped on write` — the
pydantic model performing it is not under `src/`.) -/
theorem add_memory_importance_clamped (now : ℚ) (enc : String → List ℚ)
    (c : MemoryCollection) (content : String) (importance : ℚ) (category : String)
    (topics : List String) :
    ∀ m ∈ (add_memory now enc c content importance category topics).1.memories.drop
        c.memories.length,
      0 ≤ m.data.importance ∧ m.data.importance ≤ 1 ∧
        m.data.importance = max 0 (min 1 importance) := by
  intro m hm
  rw [add_memory] at hm
  simp only [List.drop_left] at hm
  rcases List.mem_singleton.mp hm with rfl
  refine ⟨le_max_left 0 _, max_le zero_le_one (min_le_left 1 _), rfl⟩

/-- Witness for C2 at the out-of-range importance `17/10`. -/
theorem add_memory_importance_clamped_witness :
    (⟨mkMemoryData 0 "n" (17/10) "g" [], [1]⟩ : Memory) ∈
        (add_memory 0 encOne emptyCollection "n" (17/10) "g" []).1.memories.drop
          emptyCollection.memories.length ∧
      (0 ≤ (mkMemoryData 0 "n" (17/10) "g" []).importance ∧
        (mkMemoryData 0 "n" (17/10) "g" []).importance ≤ 1 ∧
        (mkMemoryData 0 "n" (17/10) "g" []).importance = max 0 (min 1 (17/10))) :=
  ⟨List.mem_singleton_self _,
   add_memory_importance_clamped 0 encOne emptyCollection "n" (17/10) "g" [] _
     (List.mem_singleton_self _)⟩

/-- C3 counterexample: ids are the Unix time truncated to whole seconds, so
two `add_memory` calls at distinct instants inside the same second (here
`100.1` and `100.9`) assign the same id `100`, violating id uniqueness. -/
theorem add_memory_id_collision :
    (1001/10 : ℚ) ≠ 1009/10 ∧
      ((add_memory (1009/10) encOne
          (add_memory (1001/10) encOne emptyCollection "a" 1 "g" []).1
          "b" 1 "g" []).1.memories.map fun m => m.data.id) = [100, 100] := by
  constructor
  · norm_num
  · norm_num [add_memory, emptyCollection, mkMemoryData, pyInt, encOne]

/-- C3 amended: the id assigned by `add_memory` is the creation time truncated
to whole seconds, so records created by calls whose timestamps truncate to
different seconds always get distinct ids (uniqueness within one second does
not hold, see the counterexample). -/
theorem add_memory_id_distinct_seconds (t1 t2 : ℚ) (enc1 enc2 : String → List ℚ)
    (c1 c2 : MemoryCollection) (s1 s2 g1 g2 : String) (i1 i2 : ℚ)
    (tp1 tp2 : List String) (h : pyInt t1 ≠ pyInt t2) :
    ∀ r1 ∈ (add_memory t1 enc1 c1 s1 i1 g1 tp1).1.memories.drop c1.memories.length,
      ∀ r2 ∈ (add_memory t2 enc2 c2 s2 i2 g2 tp2).1.memories.drop c2.memories.length,
        r1.data.id ≠ r2.data.id := by
  intro r1 h1 r2 h2
  rw [add_memory] at h1 h2
  simp only [List.drop_left] at h1 h2
  rcases List.mem_singleton.mp h1 with rfl
  rcases List.mem_singleton.mp h2 with rfl
  exact h

/-- Witness for C3 amended: adds at seconds 100 and 110 get distinct ids. -/
theorem add_memory_id_distinct_seconds_witness :
    pyInt (1001/10) ≠ pyInt 110 ∧
      (⟨mkMemoryData (1001/10) "a" 1 "g" [], [1]⟩ : Memory).data.id ≠
        (⟨mkMemoryData 110 "b" 1 "g" [], [1]⟩ : Memory).data.id := by
  have hp : pyInt (1001/10 : ℚ) ≠ pyInt 110 := by norm_num [pyInt]
  refine ⟨hp, ?_⟩
  exact add_memory_id_distinct_seconds (1001/10) 110 encOne encOne emptyCollection
    emptyCollection "a" "b" "g" "g" 1 1 [] [] hp _
    (by simp [add_memory, emptyCollection, encOne]) _
    (by simp [add_memory, emptyCollection, encOne])

/-- C8 counterexample: `add_memory` with empty content is not rejected — the
embedder is invoked on `""` and the record is appended, so the collection is
not left unchanged. -/
theorem add_memory_empty_content_cex :
    (add_memory 100 encOne emptyCollection "" (1/2) "general" []).1.memories.length = 1 ∧
      (add_memory 100 encOne emptyCollection "" (1/2) "general" []).2 = [""] := by
  constructor
  · simp [add_memory, emptyCollection]
  · rfl

/-- C8 amended: `add_memory` performs no content validation: for empty
content it still sends `""` to the embedder, appends the new record and
persists — there is no rejection path before embedding generation. -/
theorem add_memory_no_validation (now : ℚ) (enc : String → List ℚ)
    (c : MemoryCollection) (importance : ℚ) (category : String) (topics : List String) :
    (add_memory now enc c "" importance category topics).1.memories.length =
        c.memories.length + 1 ∧
      (add_memory now enc c "" importance category topics).2 = [""] := by
  constructor
  · simp [add_memory]
  · rfl

/-- C10: a deduplication pass on a collection with fewer than two memories
returns it entirely unchanged — nothing is saved and `last_deduplicated_at`
is not set — so while `last_deduplicated_at` is unset the trigger condition
keeps holding on every subsequent search. -/
theorem dedup_small_collection_noop (dedupOk saveOk : Bool) (now : ℚ)
    (c : MemoryCollection) (h : c.memories.length < 2) :
    deduplicate_and_save dedupOk saveOk now c = (c, false) ∧
      (c.last_deduplicated_at = none → ∀ t : ℚ, needs_deduplication t c = true) := by
  constructor
  · rw [deduplicate_and_save, if_pos h]
  · intro hn t
    rw [needs_deduplication, hn]

/-- Witness for C10 on a one-record collection. -/
theorem dedup_small_collection_noop_witness :
    witcol.memories.length < 2 ∧
      (deduplicate_and_save true true 0 witcol = (witcol, false) ∧
        (witcol.last_deduplicated_at = none → ∀ t : ℚ, needs_deduplication t witcol = true)) :=
  ⟨by simp [witcol], dedup_small_collection_noop true true 0 witcol (by simp [witcol])⟩

/-- C7 counterexample: after delete-all under conversation id `"conv1"`, the
collection cached under the other conversation id `"conv2"` of the same owner
is still retrievable — the whole cache is not dropped. -/
theorem delete_all_cache_cex :
    cache_lookup (delete_all_memories c7cache "conv1") "conv2" = some emptyCollection := by
  simp [delete_all_memories, cache_lookup, c7cache]

/-- C7 amended: delete-all evicts exactly the cache entry of the conversation
id it is called with; entries cached under any other conversation id are left
untouched and stay retrievable. -/
theorem delete_all_evicts_only_conversation (cache : List (String × MemoryCollection))
    (convId k : String) :
    cache_lookup (delete_all_memories cache convId) convId = none ∧
      (k ≠ convId →
        cache_lookup (delete_all_memories cache convId) k = cache_lookup cache k) := by
  constructor
  · rw [cache_lookup, delete_all_memories]
    rw [List.find?_eq_none.mpr]
    · rfl
    · intro x hx
      have h2 := (List.mem_filter.mp hx).2
      simp only [Bool.not_eq_true'] at h2
      simp [h2]
  · intro hk
    rw [cache_lookup, cache_lookup, delete_all_memories, find?_filter_of_imp]
    intro e hpe
    have he1 : e.1 = k := eq_of_beq hpe
    have : (e.1 == convId) = false := by
      rw [beq_eq_false_iff_ne, he1]
      exact hk
    simp [this]

/-- Witness for C7 amended at the concrete two-entry cache. -/
theorem delete_all_evicts_only_conversation_witness :
    ("conv2" : String) ≠ "conv1" ∧
      cache_lookup (delete_all_memories c7cache "conv1") "conv2" =
        cache_lookup c7cache "conv2" :=
  ⟨by decide,
   (delete_all_evicts_only_conversation c7cache "conv1" "conv2").2 (by decide)⟩

/-- C6 amended: a failure inside `_deduplicate_fast` (before the collection is
touched) leaves the collection unchanged and unsaved, with the error absorbed;
but a failure of the save happens after the collection object was mutated in
place, so the collection the subsequent search proceeds on is the
deduplicated one, with `last_deduplicated_at` and `updated_at` set to now —
only the persistence is skipped.  No error propagates in either case. -/
theorem dedup_failure_absorbed (saveOk : Bool) (now : ℚ) (c : MemoryCollection) :
    deduplicate_and_save false saveOk now c = (c, false) ∧
      (2 ≤ c.memories.length →
        deduplicate_and_save true false now c =
          (⟨deduplicate_fast c.memories, some now, some now⟩, false)) := by
  constructor
  · by_cases h : c.memories.length < 2
    · rw [deduplicate_and_save, if_pos h]
    · rw [deduplicate_and_save, if_neg h, if_pos rfl]
  · intro h2
    rw [deduplicate_and_save, if_neg (Nat.not_lt.mpr h2)]
    rfl

/-- Witness for C6 amended on the two-record collection. -/
theorem dedup_failure_absorbed_witness :
    2 ≤ c6col.memories.length ∧
      deduplicate_and_save true false 0 c6col =
        (⟨deduplicate_fast c6col.memories, some 0, some 0⟩, false) :=
  ⟨by simp [c6col], (dedup_failure_absorbed false 0 c6col).2 (by simp [c6col])⟩

/-- C5 amended: search never mutates a record: the searched (and cached)
collection's records form a subsequence of the pre-search records, and every
returned datum is the metadata of one of those unmodified records — in
particular `access_count` and `last_accessed` are never updated by search. -/
theorem search_preserves_records (dedupOk saveOk : Bool) (now : ℚ) (c : MemoryCollection)
    (qv : List ℚ) (top_k : ℕ) :
    ((search_memories dedupOk saveOk now c qv top_k).1).memories.Sublist c.memories ∧
      ∀ d ∈ (search_memories dedupOk saveOk now c qv top_k).2,
        ∃ m ∈ c.memories, m.data = d := by
  refine ⟨search_memories_fst_sublist dedupOk saveOk now c qv top_k, ?_⟩
  intro d hd
  rcases Bool.eq_false_or_eq_true c.memories.isEmpty with hne | hne
  · rw [search_memories, if_pos hne] at hd
    exact absurd hd (List.not_mem_nil d)
  · rw [search_memories_snd dedupOk saveOk now c qv top_k hne] at hd
    obtain ⟨i, hik, rfl⟩ := List.mem_map.mp hd
    have hilt : i < (search_memories dedupOk saveOk now c qv top_k).1.memories.length := by
      have := mem_knn _ _ _ hik
      simpa using this
    have hmem : (search_memories dedupOk saveOk now c qv top_k).1.memories.getD i default ∈
        (search_memories dedupOk saveOk now c qv top_k).1.memories := by
      rw [List.getD_eq_getElem _ _ hilt]
      exact List.getElem_mem hilt
    exact ⟨_, (search_memories_fst_sublist dedupOk saveOk now c qv top_k).mem hmem, rfl⟩

/-- Witness for C5 amended: the datum returned by the concrete search is the
data of an original, unmodified record of the collection. -/
theorem search_preserves_records_witness :
    c5data ∈ (search_memories true true 0 c5col [1] 5).2 ∧
      ∃ m ∈ c5col.memories, m.data = c5data := by
  have hr : List.range 1 = [0] := by decide
  have hmem : c5data ∈ (search_memories true true 0 c5col [1] 5).2 := by
    norm_num [search_memories, needs_deduplication, deduplicate_and_save, c5col,
      knn, hr, List.insertionSort, List.orderedInsert]
  exact ⟨hmem, (search_preserves_records true true 0 c5col [1] 5).2 c5data hmem⟩

/-- C9 amended: zero-norm vectors are not rejected anywhere: normalization is
applied unconditionally, and a search whose query or stored embeddings
include a zero-norm vector still proceeds and returns the normal
`min(top_k, n)` hits instead of raising. -/
theorem search_zero_norm_not_rejected (dedupOk saveOk : Bool) (now : ℚ)
    (c : MemoryCollection) (qv : List ℚ) (top_k : ℕ)
    (_hz : normSq qv = 0 ∨ ∃ m ∈ c.memories, normSq m.embedding = 0)
    (hne : c.memories ≠ []) :
    (search_memories dedupOk saveOk now c qv top_k).2.length =
      min top_k (search_memories dedupOk saveOk now c qv top_k).1.memories.length := by
  have hb : c.memories.isEmpty = false := by
    simpa [List.isEmpty_iff] using hne
  rw [search_memories_snd dedupOk saveOk now c qv top_k hb, List.length_map, knn_length,
    List.length_map]
  omega

/-- Witness for C9 amended: the stored vector `[0, 0]` has zero norm and the
query `[0, 0]` too, yet search returns `min 5 1 = 1` result. -/
theorem search_zero_norm_not_rejected_witness :
    (normSq [(0:ℚ), 0] = 0 ∨ ∃ m ∈ c9col.memories, normSq m.embedding = 0) ∧
      c9col.memories ≠ [] ∧
      (search_memories true true 0 c9col [0, 0] 5).2.length =
        min 5 (search_memories true true 0 c9col [0, 0] 5).1.memories.length :=
  ⟨Or.inl (by norm_num [normSq, dot]),
   by simp [c9col],
   search_zero_norm_not_rejected true true 0 c9col [0, 0] 5
     (Or.inl (by norm_num [normSq, dot])) (by simp [c9col])⟩

/-- C5 counterexample: the search returns the stored record, but its
`access_count` is still 0 (not incremented) and the collection after the
search is identical to the one before — no access statistics are recorded or
persisted. -/
theorem search_access_stats_cex :
    (search_memories true true 0 c5col [1] 5).2 = [c5data] ∧
      c5data.access_count = 0 ∧
      (search_memories true true 0 c5col [1] 5).1 = c5col := by
  have hr : List.range 1 = [0] := by decide
  refine ⟨?_, rfl, ?_⟩ <;>
    norm_num [search_memories, needs_deduplication, deduplicate_and_save, c5col,
      knn, hr, List.insertionSort, List.orderedInsert]

/-- C6 counterexample: on a collection of two near-duplicates that was never
deduplicated, a search during which the dedup save fails (`saveOk = false`)
proceeds on the already-mutated collection: one memory was dropped and
`last_deduplicated_at` was set, even though nothing was persisted — the
pre-dedup collection is not what the search sees. -/
theorem dedup_save_failure_cex :
    (deduplicate_and_save true false 0 c6col).2 = false ∧
      (search_memories true false 0 c6col [1, 0] 5).1.memories.length = 1 ∧
      (search_memories true false 0 c6col [1, 0] 5).1.last_deduplicated_at = some 0 ∧
      c6col.memories.length = 2 ∧ c6col.last_deduplicated_at = none := by
  have hr1 : List.range 1 = [0] := by decide
  have hr2 : List.range 2 = [0, 1] := by decide
  refine ⟨?_, ?_, ?_, by simp [c6col], rfl⟩ <;>
    norm_num [search_memories, needs_deduplication, deduplicate_and_save, deduplicate_fast,
      dedup_removed, dedup_visit, knn, nbr_le, simKey, cos_gt_075, dot, normSq, imp_at,
      emb_at, c6col, hr1, hr2, List.insertionSort, List.orderedInsert, List.enum,
      List.enumFrom, List.foldl, List.filter, Finset.mem_insert, Finset.mem_singleton]

/-- C9 counterexample: a record whose embedding is the zero vector (norm 0)
and a zero query vector are both processed by search without any rejection:
the record is even returned.  Nothing guards the division by the zero norm. -/
theorem search_zero_norm_cex :
    normSq [(0:ℚ), 0] = 0 ∧
      (search_memories true true 0 c9col [0, 0] 5).2 = [c9data] := by
  have hr : List.range 1 = [0] := by decide
  constructor
  · norm_num [normSq, dot]
  · norm_num [search_memories, needs_deduplication, deduplicate_and_save, c9col,
      knn, hr, List.insertionSort, List.orderedInsert]

/-- C4: for every collection and query (with well-formed, nonzero-norm
embeddings, so that cosine similarity is defined), search returns at most
`min(top_k, collection cardinality)` results, and the results follow the
indices `idxs` into the searched collection ordered by descending real cosine
similarity to the query, with exact similarity ties broken by ascending
position (positions coincide with relative original insertion order). -/
theorem search_topk_ordered (dedupOk saveOk : Bool) (now : ℚ) (c : MemoryCollection)
    (qv : List ℚ) (top_k : ℕ) (hq : 0 < normSq qv)
    (hmem : ∀ m ∈ c.memories, 0 < normSq m.embedding) :
    (search_memories dedupOk saveOk now c qv top_k).2.length ≤ min top_k c.memories.length ∧
      ∃ idxs : List ℕ,
        (search_memories dedupOk saveOk now c qv top_k).2 =
          idxs.map (fun i =>
            ((search_memories dedupOk saveOk now c qv top_k).1.memories.getD i default).data) ∧
        idxs.Pairwise (fun i j =>
          cosSimR qv (emb_at (search_memories dedupOk saveOk now c qv top_k).1.memories j) ≤
            cosSimR qv (emb_at (search_memories dedupOk saveOk now c qv top_k).1.memories i) ∧
          (cosSimR qv (emb_at (search_memories dedupOk saveOk now c qv top_k).1.memories i) =
              cosSimR qv (emb_at (search_memories dedupOk saveOk now c qv top_k).1.memories j) →
            i < j)) := by
  have hsub := search_memories_fst_sublist dedupOk saveOk now c qv top_k
  have hsnd0 := search_memories_snd dedupOk saveOk now c qv top_k
  set S := search_memories dedupOk saveOk now c qv top_k with hS
  rcases Bool.eq_false_or_eq_true c.memories.isEmpty with hne | hne
  · have h2 : S.2 = [] := by
      rw [hS, search_memories, if_pos hne]
    refine ⟨by simp [h2], [], by simp [h2], List.Pairwise.nil⟩
  · have hsnd := hsnd0 hne
    constructor
    · rw [hsnd, List.length_map, knn_length, List.length_map]
      have hle : S.1.memories.length ≤ c.memories.length := hsub.length_le
      omega
    · refine ⟨_, hsnd, ?_⟩
      exact knn_map_ordered S.1.memories qv (min top_k S.1.memories.length) hq
        (fun m hm => hmem m (hsub.mem hm))

/-- Witness for C4 on a one-record collection and the query `[1, 0]`. -/
theorem search_topk_ordered_witness :
    (0:ℚ) < normSq [(1:ℚ), 0] ∧
      (search_memories true true 0 witcol [1, 0] 5).2.length ≤ min 5 witcol.memories.length :=
  ⟨by norm_num [normSq, dot],
   (search_topk_ordered true true 0 witcol [1, 0] 5 (by norm_num [normSq, dot])
     (by norm_num [witcol, normSq, dot])).1⟩

/-- C1 counterexample: in the three-record scenario A (importance 1/2),
B (importance 2/5), C (importance 9/10) with sim(A,B) ≈ 0.98 > 0.75,
sim(A,C) = 0.8 > 0.75 and sim(B,C) ≤ 0.75, the pass visits record 0 = A,
examines the pair (A, B) — B is A's first neighbor after itself, as the `knn`
equation shows — marks B, then examines (A, C) and marks A itself.  Hence for
the examined pair (A, B), with similarity above the threshold and A of
strictly higher importance, both members are removed and the higher-
importance member A does not survive: only C does. -/
theorem dedup_pair_both_removed_cex :
    deduplicate_fast c1mems = [c1memC] ∧
      cos_gt_075 c1memA.embedding c1memB.embedding = true ∧
      c1memB.data.importance < c1memA.data.importance ∧
      knn (c1mems.map fun m => m.embedding)
          ((c1mems.map fun m => m.embedding).getD 0 []) (min 10 c1mems.length) =
        [0, 1, 2] := by
  have hr3 : List.range 3 = [0, 1, 2] := by decide
  refine ⟨?_, ?_, ?_, ?_⟩ <;>
    norm_num [deduplicate_fast, dedup_removed, dedup_visit, knn, nbr_le, simKey,
      cos_gt_075, dot, normSq, imp_at, emb_at, c1mems, c1memA, c1memB, c1memC, hr3,
      List.insertionSort, List.orderedInsert, List.enum, List.enumFrom, List.foldl,
      List.filter, Finset.mem_insert, Finset.mem_singleton]

/-- Witness for C1 amended: record 2 = C survives the pass on the scenario
collection; its examined neighbor 0 = A has similarity above the threshold
and is indeed in the removed set. -/
theorem dedup_removed_of_surviving_witness :
    (2 < c1mems.length ∧ (2 ∉ dedup_removed c1mems) ∧
        0 ∈ (knn (c1mems.map fun m => m.embedding)
          ((c1mems.map fun m => m.embedding).getD 2 []) (min 10 c1mems.length)).drop 1 ∧
        cos_gt_075 (emb_at c1mems 2) (emb_at c1mems 0) = true) ∧
      0 ∈ dedup_removed c1mems := by
  have hr3 : List.range 3 = [0, 1, 2] := by decide
  have h1 : 2 < c1mems.length := by simp [c1mems]
  have h2 : 2 ∉ dedup_removed c1mems := by
    norm_num [dedup_removed, dedup_visit, knn, nbr_le, simKey, cos_gt_075, dot, normSq,
      imp_at, emb_at, c1mems, c1memA, c1memB, c1memC, hr3, List.insertionSort,
      List.orderedInsert, List.foldl, Finset.mem_insert, Finset.mem_singleton]
  have h3 : 0 ∈ (knn (c1mems.map fun m => m.embedding)
      ((c1mems.map fun m => m.embedding).getD 2 []) (min 10 c1mems.length)).drop 1 := by
    norm_num [knn, nbr_le, simKey, dot, normSq, c1mems, c1memA, c1memB, c1memC, hr3,
      List.insertionSort, List.orderedInsert]
  have h4 : cos_gt_075 (emb_at c1mems 2) (emb_at c1mems 0) = true := by
    norm_num [cos_gt_075, dot, normSq, emb_at, c1mems, c1memA, c1memC]
  exact ⟨⟨h1, h2, h3, h4⟩, dedup_removed_of_surviving c1mems 2 h1 h2 0 h3 h4⟩

end MemStore
